import Mathlib

/-!
Verification of the ABI metadata codec (`language/evm/move-to-yul/src/abi_move_metadata.rs`,
`language/evm/move-abi/src/abi_move_type.rs`) and the model-builder options
(`language/move-model/src/options.rs`) of the move-fork repository.

Modelling conventions:
* Rust `Vec<u8>` byte sequences are `List Nat` (each element < 256 where it matters).
* Rust `String` / `&str` values are `List Nat` of Unicode scalar values; `BTreeMap<String, _>`
  ordering is lexicographic over UTF-8 bytes, which coincides with lexicographic order on
  scalar values, modelled by `strLt`.
* A `BTreeMap<String, V>` is a key-sorted association list (`List (List Nat × V)` whose keys
  are strictly ascending under `strLt`); `BTreeMap::insert` is `insertSorted`.
* `serde_json::to_string_pretty` followed by `serde_json::from_str` is an exact inverse pair
  on JSON documents (an external-library contract); a metadata value byte vector is therefore
  modelled as a `Blob`: either the JSON document its bytes render (`Blob.json`), or
  `Blob.invalid` for byte vectors that are not UTF-8 or not JSON.
* A Rust `.unwrap()` failure (panic) is the explicit outcome `RustOutcome.panicked`.
-/

/-- Lexicographic strict order on strings-as-scalar-lists; this is the `Ord` of Rust
`String`, which compares UTF-8 bytes lexicographically. -/
def strLt : List Nat → List Nat → Bool
  | [], [] => false
  | [], _ :: _ => true
  | _ :: _, [] => false
  | a :: as, b :: bs => decide (a < b) || (decide (a = b) && strLt as bs)

theorem strLt_irrefl : ∀ s : List Nat, strLt s s = false
  | [] => rfl
  | a :: as => by simp [strLt, strLt_irrefl as]

theorem strLt_asymm : ∀ a b : List Nat, strLt a b = true → strLt b a = false
  | [], [], h => by simp [strLt] at h
  | [], _ :: _, _ => by simp [strLt]
  | _ :: _, [], h => by simp [strLt] at h
  | x :: xs, y :: ys, h => by
    simp only [strLt, Bool.or_eq_true, Bool.and_eq_true, decide_eq_true_eq] at h ⊢
    simp only [Bool.or_eq_false_iff, Bool.and_eq_false_iff, decide_eq_false_iff_not]
    rcases h with hlt | ⟨heq, hrec⟩
    · exact ⟨by omega, Or.inl (by omega)⟩
    · exact ⟨by omega, Or.inr (strLt_asymm xs ys hrec)⟩

theorem strLt_ne {a b : List Nat} (h : strLt a b = true) : a ≠ b := by
  intro heq; subst heq; simp [strLt_irrefl] at h

theorem strLt_nil_right : ∀ b : List Nat, strLt b [] = false
  | [] => rfl
  | _ :: _ => rfl

theorem strLt_trans : ∀ a b c : List Nat,
    strLt a b = true → strLt b c = true → strLt a c = true
  | [], b, [], _, h2 => by rw [strLt_nil_right b] at h2; cases h2
  | [], _, _ :: _, _, _ => by simp [strLt]
  | _ :: _, [], _, h1, _ => by simp [strLt] at h1
  | _ :: _, _ :: _, [], _, h2 => by simp [strLt] at h2
  | x :: xs, y :: ys, z :: zs, h1, h2 => by
    simp only [strLt, Bool.or_eq_true, Bool.and_eq_true, decide_eq_true_eq] at h1 h2 ⊢
    rcases h1 with hlt1 | ⟨he1, hr1⟩ <;> rcases h2 with hlt2 | ⟨he2, hr2⟩
    · exact Or.inl (by omega)
    · exact Or.inl (by omega)
    · exact Or.inl (by omega)
    · exact Or.inr ⟨by omega, strLt_trans xs ys zs hr1 hr2⟩

theorem strLt_connex : ∀ a b : List Nat, a ≠ b → strLt a b = true ∨ strLt b a = true
  | [], [], h => absurd rfl h
  | [], _ :: _, _ => by simp [strLt]
  | _ :: _, [], _ => by simp [strLt]
  | x :: xs, y :: ys, h => by
    simp only [strLt, Bool.or_eq_true, Bool.and_eq_true, decide_eq_true_eq]
    by_cases hxy : x = y
    · subst hxy
      have hne : xs ≠ ys := by intro he; exact h (by rw [he])
      rcases strLt_connex xs ys hne with h1 | h1
      · exact Or.inl (Or.inr ⟨rfl, h1⟩)
      · exact Or.inr (Or.inr ⟨rfl, h1⟩)
    · rcases Nat.lt_or_ge x y with hlt | hge
      · exact Or.inl (Or.inl hlt)
      · exact Or.inr (Or.inl (by omega))

/-- Unicode scalar values of a Lean string literal (all identifiers and keys in this
development are ASCII, so these coincide with the UTF-8 bytes). -/
def strLit (s : String) : List Nat := s.toList.map Char.toNat

/-- UTF-8 encoding of one Unicode scalar value, as in Rust `str::as_bytes`. -/
def utf8EncodeChar (c : Nat) : List Nat :=
  if c < 0x80 then [c]
  else if c < 0x800 then [0xC0 + c / 0x40, 0x80 + c % 0x40]
  else if c < 0x10000 then [0xE0 + c / 0x1000, 0x80 + c / 0x40 % 0x40, 0x80 + c % 0x40]
  else [0xF0 + c / 0x40000, 0x80 + c / 0x1000 % 0x40, 0x80 + c / 0x40 % 0x40, 0x80 + c % 0x40]

/-- UTF-8 encoding of a string (Rust `str::as_bytes().to_vec()`). -/
def utf8Encode (s : List Nat) : List Nat := (s.map utf8EncodeChar).flatten

/-- Whether a byte is a UTF-8 continuation byte (10xxxxxx). -/
def contByte (b : Nat) : Bool := 0x80 ≤ b && b < 0xC0

/-- Fuelled UTF-8 decoder: returns the scalar values when the byte list is valid UTF-8,
`none` otherwise (the failure case of Rust `str::from_utf8`). The fuel only needs to be
at least the list length. -/
def decodeUtf8Fuel : Nat → List Nat → Option (List Nat)
  | _, [] => some []
  | 0, _ :: _ => none
  | fuel + 1, b :: rest =>
    if b < 0x80 then
      (decodeUtf8Fuel fuel rest).map (fun cps => b :: cps)
    else if b < 0xC2 then none
    else if b < 0xE0 then
      match rest with
      | b1 :: rest1 =>
        if contByte b1 then
          (decodeUtf8Fuel fuel rest1).map (fun cps => ((b - 0xC0) * 0x40 + (b1 - 0x80)) :: cps)
        else none
      | [] => none
    else if b < 0xF0 then
      match rest with
      | b1 :: b2 :: rest2 =>
        if contByte b1 && contByte b2 then
          let cp := (b - 0xE0) * 0x1000 + (b1 - 0x80) * 0x40 + (b2 - 0x80)
          if cp < 0x800 || (0xD800 ≤ cp && cp < 0xE000) then none
          else (decodeUtf8Fuel fuel rest2).map (fun cps => cp :: cps)
        else none
      | _ => none
    else if b < 0xF5 then
      match rest with
      | b1 :: b2 :: b3 :: rest3 =>
        if contByte b1 && contByte b2 && contByte b3 then
          let cp := (b - 0xF0) * 0x40000 + (b1 - 0x80) * 0x1000 +
            (b2 - 0x80) * 0x40 + (b3 - 0x80)
          if cp < 0x10000 || 0x110000 ≤ cp then none
          else (decodeUtf8Fuel fuel rest3).map (fun cps => cp :: cps)
        else none
      | _ => none
    else none

/-- UTF-8 decoding of a byte list (Rust `str::from_utf8`), as scalar values. -/
def decodeUtf8 (bytes : List Nat) : Option (List Nat) := decodeUtf8Fuel bytes.length bytes

/-- JSON documents, the target of `serde_json` serialization. Object fields carry the
order in which `serde_json` emits or encounters them. -/
inductive Json where
  | null
  | bool (b : Bool)
  | num (n : Int)
  | str (s : List Nat)
  | arr (elems : List Json)
  | obj (fields : List (List Nat × Json))

/-! ## Sorted association lists: the model of `BTreeMap<String, V>` -/

/-- `BTreeMap::insert`: insert into a key-sorted association list, replacing the value
when the key is already present. -/
def insertSorted {α : Type} : List (List Nat × α) → List Nat → α → List (List Nat × α)
  | [], k, v => [(k, v)]
  | (k', v') :: rest, k, v =>
    if strLt k k' then (k, v) :: (k', v') :: rest
    else if k = k' then (k, v) :: rest
    else (k', v') :: insertSorted rest k v

/-- The `BTreeMap` invariant: keys strictly ascending in `strLt` order. -/
def sortedKeys {α : Type} (m : List (List Nat × α)) : Prop :=
  List.Pairwise (fun a b => strLt a.1 b.1 = true) m

theorem insertSorted_append {α : Type} (k : List Nat) (v : α) :
    ∀ m : List (List Nat × α), (∀ x ∈ m, strLt x.1 k = true) →
      insertSorted m k v = m ++ [(k, v)]
  | [], _ => rfl
  | (k', v') :: rest, h => by
    have hk' : strLt k' k = true := h (k', v') (List.mem_cons_self _ _)
    have h1 : strLt k k' = false := strLt_asymm _ _ hk'
    have h2 : k ≠ k' := fun he => strLt_ne hk' he.symm
    simp only [insertSorted, h1, Bool.false_eq_true, if_false, h2, if_false, List.cons_append,
      List.cons.injEq, true_and]
    exact insertSorted_append k v rest (fun x hx => h x (List.mem_cons_of_mem _ hx))

/-! ## ABI signature records

Modelled from the spec: `ABIJsonSignature` (defined in
`language/evm/move-abi/src/abi_signature_type.rs`, which is not under src/) is the
canonical Signature Record of one callable surface item, per the data model:
a `name`, a `kind` (event or function), an ordered `parameters` list of
(type-descriptor, optional indexed-flag) pairs, and an optional `mutability`
attribute attached only to functions. -/

inductive ABIKind where
  | event
  | function
deriving DecidableEq

structure ABIParam where
  ty : List Nat
  indexed : Option Bool
deriving DecidableEq

structure ABIJsonSignature where
  name : List Nat
  kind : ABIKind
  parameters : List ABIParam
  mutability : Option (List Nat)
deriving DecidableEq

/-- The aggregate signature table of `abi_move_type.rs`: two `BTreeMap<String,
ABIJsonSignature>` fields, Move type name to event ABI and Move function name to
function ABI. -/
structure ABIMoveSignature where
  event_map : List (List Nat × ABIJsonSignature)
  func_map : List (List Nat × ABIJsonSignature)
deriving DecidableEq

/-- The `BTreeMap` invariant of both maps of an `ABIMoveSignature`, which every value
of the Rust type satisfies by construction. -/
def ABIMoveSignature.WF (t : ABIMoveSignature) : Prop :=
  sortedKeys t.event_map ∧ sortedKeys t.func_map

/-! ## serde serialization of the signature types to JSON -/

def kindToStr : ABIKind → List Nat
  | .event => strLit "event"
  | .function => strLit "function"

def kindFromStr (s : List Nat) : Option ABIKind :=
  if s = strLit "event" then some .event
  else if s = strLit "function" then some .function
  else none

def optBoolToJson : Option Bool → Json
  | none => Json.null
  | some b => Json.bool b

def optBoolFromJson : Json → Option (Option Bool)
  | Json.null => some none
  | Json.bool b => some (some b)
  | _ => none

def optStrToJson : Option (List Nat) → Json
  | none => Json.null
  | some s => Json.str s

def optStrFromJson : Json → Option (Option (List Nat))
  | Json.null => some none
  | Json.str s => some (some s)
  | _ => none

def paramToJson (p : ABIParam) : Json :=
  Json.obj [(strLit "type", Json.str p.ty), (strLit "indexed", optBoolToJson p.indexed)]

def paramFromJson : Json → Option ABIParam
  | Json.obj [(t, Json.str ty), (i, ind)] =>
    if t = strLit "type" ∧ i = strLit "indexed" then
      match optBoolFromJson ind with
      | some ix => some ⟨ty, ix⟩
      | none => none
    else none
  | _ => none

def paramsFromJson : List Json → Option (List ABIParam)
  | [] => some []
  | j :: rest =>
    match paramFromJson j, paramsFromJson rest with
    | some p, some ps => some (p :: ps)
    | _, _ => none

def sigToJson (s : ABIJsonSignature) : Json :=
  Json.obj [(strLit "name", Json.str s.name),
            (strLit "kind", Json.str (kindToStr s.kind)),
            (strLit "parameters", Json.arr (s.parameters.map paramToJson)),
            (strLit "mutability", optStrToJson s.mutability)]

def sigFromJson : Json → Option ABIJsonSignature
  | Json.obj [(n, Json.str name), (k, Json.str kind),
              (p, Json.arr params), (m, mutv)] =>
    if n = strLit "name" ∧ k = strLit "kind" ∧ p = strLit "parameters" ∧
        m = strLit "mutability" then
      match kindFromStr kind, paramsFromJson params, optStrFromJson mutv with
      | some kd, some ps, some mu => some ⟨name, kd, ps, mu⟩
      | _, _, _ => none
    else none
  | _ => none

/-- serde emits a `BTreeMap<String, ABIJsonSignature>` as a JSON object, fields in map
(sorted-key) order. -/
def mapToJson (m : List (List Nat × ABIJsonSignature)) : List (List Nat × Json) :=
  m.map (fun kv => (kv.1, sigToJson kv.2))

/-- serde deserializes a JSON object into a `BTreeMap` by inserting each field in
document order. -/
def mapFromJsonAux (acc : List (List Nat × ABIJsonSignature)) :
    List (List Nat × Json) → Option (List (List Nat × ABIJsonSignature))
  | [] => some acc
  | (k, j) :: rest =>
    match sigFromJson j with
    | some s => mapFromJsonAux (insertSorted acc k s) rest
    | none => none

def mapFromJson (fields : List (List Nat × Json)) :
    Option (List (List Nat × ABIJsonSignature)) :=
  mapFromJsonAux [] fields

/-- serde serialization of `ABIMoveSignature`: a JSON object with the two fields in
struct declaration order, each a map object. -/
def abiToJson (t : ABIMoveSignature) : Json :=
  Json.obj [(strLit "event_map", Json.obj (mapToJson t.event_map)),
            (strLit "func_map", Json.obj (mapToJson t.func_map))]

def abiFromJson : Json → Option ABIMoveSignature
  | Json.obj [(e, Json.obj em), (f, Json.obj fm)] =>
    if e = strLit "event_map" ∧ f = strLit "func_map" then
      match mapFromJson em, mapFromJson fm with
      | some a, some b => some ⟨a, b⟩
      | _, _ => none
    else none
  | _ => none

/-! ## Round-trip of the JSON serialization -/

theorem optBool_roundtrip : ∀ x : Option Bool, optBoolFromJson (optBoolToJson x) = some x
  | none => rfl
  | some _ => rfl

theorem optStr_roundtrip : ∀ x : Option (List Nat), optStrFromJson (optStrToJson x) = some x
  | none => rfl
  | some _ => rfl

theorem kind_roundtrip : ∀ k : ABIKind, kindFromStr (kindToStr k) = some k
  | .event => by decide
  | .function => by decide

theorem param_roundtrip (p : ABIParam) : paramFromJson (paramToJson p) = some p := by
  obtain ⟨ty, ix⟩ := p
  cases ix <;> simp [paramToJson, paramFromJson, optBoolToJson, optBoolFromJson, strLit]

theorem params_roundtrip : ∀ l : List ABIParam,
    paramsFromJson (l.map paramToJson) = some l
  | [] => rfl
  | p :: rest => by
    simp only [List.map_cons, paramsFromJson, param_roundtrip p, params_roundtrip rest]

theorem sig_roundtrip (s : ABIJsonSignature) : sigFromJson (sigToJson s) = some s := by
  obtain ⟨name, kind, params, mu⟩ := s
  simp only [sigToJson, sigFromJson]
  rw [if_pos (by simp)]
  simp only [kind_roundtrip, params_roundtrip, optStr_roundtrip]

theorem mapFromJsonAux_sorted :
    ∀ (rest : List (List Nat × ABIJsonSignature)) (acc : List (List Nat × ABIJsonSignature)),
      sortedKeys (acc ++ rest) → mapFromJsonAux acc (mapToJson rest) = some (acc ++ rest)
  | [], acc, _ => by simp [mapToJson, mapFromJsonAux]
  | (k, s) :: rest', acc, hsort => by
    simp only [mapToJson, List.map_cons, mapFromJsonAux, sig_roundtrip s]
    have hbefore : ∀ x ∈ acc, strLt x.1 k = true := by
      rw [sortedKeys, List.pairwise_append] at hsort
      intro x hx
      exact hsort.2.2 x hx (k, s) (List.mem_cons_self _ _)
    rw [insertSorted_append k s acc hbefore]
    have hsort' : sortedKeys ((acc ++ [(k, s)]) ++ rest') := by
      rw [← List.append_cons]; exact hsort
    have := mapFromJsonAux_sorted rest' (acc ++ [(k, s)]) hsort'
    rw [mapToJson] at this
    rw [this, ← List.append_cons]

theorem mapFromJson_roundtrip (m : List (List Nat × ABIJsonSignature))
    (h : sortedKeys m) : mapFromJson (mapToJson m) = some m := by
  have := mapFromJsonAux_sorted m [] (by simpa using h)
  simpa [mapFromJson] using this

theorem abiFromJson_roundtrip (t : ABIMoveSignature) (h : t.WF) :
    abiFromJson (abiToJson t) = some t := by
  obtain ⟨em, fm⟩ := t
  obtain ⟨he, hf⟩ := h
  simp only [abiToJson, abiFromJson]
  rw [if_pos (by simp), mapFromJson_roundtrip em he, mapFromJson_roundtrip fm hf]

/-! ## The metadata codec (`abi_move_metadata.rs`) -/

/-- A metadata value byte vector, modelled at the level the codec observes it: either
the JSON document the bytes render as UTF-8 text, or bytes that are not UTF-8 / not
JSON. -/
inductive Blob where
  | json (doc : Json)
  | invalid

/-- `move_core_types::metadata::Metadata`: a key/value pair of byte vectors attached to
a compiled module. -/
structure Metadata where
  key : List Nat
  value : Blob

/-- The reserved metadata key constant `ABI_MOVE_KEY = "abi_move"` (as a string). -/
def ABI_MOVE_KEY : List Nat := strLit "abi_move"

/-- The serialization tail of `generate_abi_move_metadata` (lines 43-55): serialize the
aggregate table with `serde_json::to_string_pretty`, take the UTF-8 bytes, and pair them
with the UTF-8 bytes of the reserved key. -/
def serializeAbiMove (t : ABIMoveSignature) : Metadata :=
  { key := utf8Encode ABI_MOVE_KEY, value := Blob.json (abiToJson t) }

/-- Modelled from the spec: the compilation context type `Context`, the environment
lookups `get_struct`/`get_function`/`get_identifier`, and the Signature Translator
functions `from_event_sig`/`from_solidity_sig` are not under src/. Per the external
interface description, the context exposes an enumerable registry of event keys and one
of callable-function keys, each key resolvable to its declared identifier and (through
the translator) to its signature record; we model a registry entry as an abstract
handle paired with its resolved identifier and translated signature. The list order is
whatever iteration order the registry exposes. -/
structure Context where
  event_signature_map : List (Nat × (List Nat × ABIJsonSignature))
  callable_function_map : List (Nat × (List Nat × ABIJsonSignature))

/-- `generate_abi_move_metadata`: fold each registry into a fresh `BTreeMap` keyed by
the declared identifier, then serialize the aggregate table under the reserved key. -/
def generate_abi_move_metadata (ctx : Context) : Metadata :=
  let event_map := ctx.event_signature_map.foldl (fun m e => insertSorted m e.2.1 e.2.2) []
  let func_map := ctx.callable_function_map.foldl (fun m e => insertSorted m e.2.1 e.2.2) []
  serializeAbiMove { event_map := event_map, func_map := func_map }

/-- Outcome of running a Rust function that may `panic!` (here always via a failed
`unwrap`). -/
inductive RustOutcome (α : Type) where
  | ok (val : α)
  | panicked

/-- `parse_metadata_to_move_sig`: decode the key bytes as UTF-8 (`unwrap`: panic when
invalid); when the key equals the reserved constant, decode the value bytes as UTF-8
and deserialize them (`unwrap` twice: panic when the bytes are not UTF-8, not JSON, or
not a well-formed aggregate table); otherwise return `None`. -/
def parse_metadata_to_move_sig (metadata : Metadata) : RustOutcome (Option ABIMoveSignature) :=
  match decodeUtf8 metadata.key with
  | none => .panicked
  | some key_str =>
    if key_str = ABI_MOVE_KEY then
      match metadata.value with
      | Blob.invalid => .panicked
      | Blob.json doc =>
        match abiFromJson doc with
        | none => .panicked
        | some sig => .ok (some sig)
    else .ok none

/-- Decoding a metadata store entry-by-entry: the source offers only the per-entry
`parse_metadata_to_move_sig`, so a store is decoded by applying it to each entry. -/
def decodeStore (store : List Metadata) : List (RustOutcome (Option ABIMoveSignature)) :=
  store.map parse_metadata_to_move_sig

theorem decodeUtf8_abi_move_key : decodeUtf8 (utf8Encode ABI_MOVE_KEY) = some ABI_MOVE_KEY := by
  decide

theorem strLt_trichotomy (a b : List Nat) :
    strLt a b = true ∨ a = b ∨ strLt b a = true := by
  by_cases h : a = b
  · exact Or.inr (Or.inl h)
  · rcases strLt_connex a b h with h1 | h1
    · exact Or.inl h1
    · exact Or.inr (Or.inr h1)

theorem insertSorted_comm {α : Type} (k1 k2 : List Nat) (v1 v2 : α) (hne : k1 ≠ k2) :
    ∀ m : List (List Nat × α),
      insertSorted (insertSorted m k1 v1) k2 v2 =
        insertSorted (insertSorted m k2 v2) k1 v1 := by
  intro m
  induction m with
  | nil =>
    rcases strLt_connex k1 k2 hne with h | h
    · simp [insertSorted, h, strLt_asymm _ _ h, hne, Ne.symm hne]
    · simp [insertSorted, h, strLt_asymm _ _ h, hne, Ne.symm hne]
  | cons hd tl ih =>
    obtain ⟨k, v⟩ := hd
    rcases strLt_trichotomy k1 k with h1 | h1 | h1 <;>
      rcases strLt_trichotomy k2 k with h2 | h2 | h2
    · rcases strLt_connex k1 k2 hne with h12 | h21
      · simp [insertSorted, h1, h2, h12, strLt_asymm _ _ h12, hne, Ne.symm hne]
      · simp [insertSorted, h1, h2, h21, strLt_asymm _ _ h21, hne, Ne.symm hne]
    · subst h2
      simp [insertSorted, h1, strLt_asymm _ _ h1, strLt_irrefl, Ne.symm hne]
    · have h12 : strLt k1 k2 = true := strLt_trans _ _ _ h1 h2
      simp [insertSorted, h1, h12, strLt_asymm _ _ h2, strLt_asymm _ _ h12,
        Ne.symm (strLt_ne h2), Ne.symm hne]
    · subst h1
      simp [insertSorted, h2, strLt_asymm _ _ h2, strLt_irrefl, hne]
    · exact absurd (h1.trans h2.symm) hne
    · subst h1
      simp [insertSorted, strLt_irrefl, strLt_asymm _ _ h2, Ne.symm (strLt_ne h2)]
    · have h21 : strLt k2 k1 = true := strLt_trans _ _ _ h2 h1
      simp [insertSorted, h2, h21, strLt_asymm _ _ h1, strLt_asymm _ _ h21,
        Ne.symm (strLt_ne h1), hne]
    · subst h2
      simp [insertSorted, strLt_irrefl, strLt_asymm _ _ h1, Ne.symm (strLt_ne h1)]
    · simp [insertSorted, strLt_asymm _ _ h1, strLt_asymm _ _ h2,
        Ne.symm (strLt_ne h1), Ne.symm (strLt_ne h2), ih]

/-- Folding registry entries into a map by `BTreeMap::insert` on the declared
identifier is invariant under the registry's iteration order, provided the declared
identifiers are pairwise distinct. -/
theorem foldl_insert_perm (l l' : List (Nat × (List Nat × ABIJsonSignature)))
    (hperm : l.Perm l') (hdist : l.Pairwise (fun a b => a.2.1 ≠ b.2.1)) :
    l.foldl (fun m e => insertSorted m e.2.1 e.2.2) [] =
      l'.foldl (fun m e => insertSorted m e.2.1 e.2.2) [] := by
  apply hperm.foldl_eq'
  intro x hx y hy z
  by_cases hxy : x = y
  · subst hxy; rfl
  · have hne : x.2.1 ≠ y.2.1 :=
      (List.Pairwise.forall (fun _ _ h => Ne.symm h) hdist) hx hy hxy
    exact insertSorted_comm x.2.1 y.2.1 x.2.2 y.2.2 hne z

/-- Decoding an encoded aggregate table recovers it (helper shared by several
theorems below). -/
theorem parse_serializeAbiMove (t : ABIMoveSignature) (h : t.WF) :
    parse_metadata_to_move_sig (serializeAbiMove t) = .ok (some t) := by
  simp [parse_metadata_to_move_sig, serializeAbiMove, decodeUtf8_abi_move_key,
    abiFromJson_roundtrip t h]

/-! ## Decidability of the map invariant, and sample data -/

instance sortedKeysDecidable {α : Type} [DecidableEq α] (m : List (List Nat × α)) :
    Decidable (sortedKeys m) := by
  unfold sortedKeys; infer_instance

instance wfDecidable (t : ABIMoveSignature) : Decidable t.WF := by
  unfold ABIMoveSignature.WF; infer_instance

/-- The `Transfer` event record of the concrete scenario in the spec. -/
def transferSig : ABIJsonSignature :=
  ⟨strLit "Transfer", .event,
    [⟨strLit "address", some true⟩, ⟨strLit "address", some false⟩,
     ⟨strLit "uint256", some false⟩], none⟩

/-- The payable `deposit` function record of the concrete scenario in the spec. -/
def depositSig : ABIJsonSignature :=
  ⟨strLit "deposit", .function, [⟨strLit "uint256", none⟩], some (strLit "payable")⟩

/-- A second event record, used to exercise registry order. -/
def approvalSig : ABIJsonSignature :=
  ⟨strLit "Approval", .event, [⟨strLit "address", some true⟩], none⟩

/-- A small aggregate signature table. -/
def sampleTable : ABIMoveSignature :=
  ⟨[(strLit "Transfer", transferSig)], [(strLit "deposit", depositSig)]⟩

/-- A compilation context holding two events and one callable function. -/
def ctxA : Context :=
  ⟨[(0, (strLit "Transfer", transferSig)), (1, (strLit "Approval", approvalSig))],
   [(2, (strLit "deposit", depositSig))]⟩

/-- The same compilation context with its event registry iterated in the other
order. -/
def ctxB : Context :=
  ⟨[(1, (strLit "Approval", approvalSig)), (0, (strLit "Transfer", transferSig))],
   [(2, (strLit "deposit", depositSig))]⟩

/-! ## Claim theorems for the metadata codec -/

/-- C1: decoding the metadata entry produced by encoding an aggregate signature table
`t` (serialization under the reserved key, as `generate_abi_move_metadata` does)
yields `Some` of a table structurally equal to `t`, sorted key order of `event_map`
and `func_map` included. The hypothesis is the `BTreeMap` key-sortedness invariant
that every Rust value of the type carries. -/
theorem abi_metadata_roundtrip (t : ABIMoveSignature) (h : t.WF) :
    parse_metadata_to_move_sig (serializeAbiMove t) = .ok (some t) :=
  parse_serializeAbiMove t h

/-- Witness for C1 at a concrete table. -/
theorem abi_metadata_roundtrip_witness :
    sampleTable.WF ∧
      parse_metadata_to_move_sig (serializeAbiMove sampleTable) = .ok (some sampleTable) :=
  ⟨by decide, abi_metadata_roundtrip sampleTable (by decide)⟩

/-- C2: the ABI encoding is deterministic: on one context it trivially reproduces the
same bytes, and on two contexts whose registries are permutations of each other (the
same registrations seen in any iteration order, with the declared identifiers
pairwise distinct as the data model requires) it produces byte-identical key and
value. -/
theorem generate_abi_move_metadata_deterministic (c c' : Context)
    (he : c.event_signature_map.Perm c'.event_signature_map)
    (hf : c.callable_function_map.Perm c'.callable_function_map)
    (hde : c.event_signature_map.Pairwise (fun a b => a.2.1 ≠ b.2.1))
    (hdf : c.callable_function_map.Pairwise (fun a b => a.2.1 ≠ b.2.1)) :
    (generate_abi_move_metadata c).key = (generate_abi_move_metadata c').key ∧
      (generate_abi_move_metadata c).value = (generate_abi_move_metadata c').value := by
  constructor
  · rfl
  · show Blob.json _ = Blob.json _
    rw [foldl_insert_perm _ _ he hde, foldl_insert_perm _ _ hf hdf]

/-- Witness for C2: two registries differing only in iteration order encode to the
same key bytes and value bytes. -/
theorem generate_abi_move_metadata_deterministic_witness :
    ctxA.event_signature_map.Perm ctxB.event_signature_map ∧
    ctxA.callable_function_map.Perm ctxB.callable_function_map ∧
    ctxA.event_signature_map.Pairwise (fun a b => a.2.1 ≠ b.2.1) ∧
    ctxA.callable_function_map.Pairwise (fun a b => a.2.1 ≠ b.2.1) ∧
    ((generate_abi_move_metadata ctxA).key = (generate_abi_move_metadata ctxB).key ∧
      (generate_abi_move_metadata ctxA).value = (generate_abi_move_metadata ctxB).value) :=
  ⟨by decide, by decide, by decide, by decide,
    generate_abi_move_metadata_deterministic ctxA ctxB (by decide) (by decide)
      (by decide) (by decide)⟩

/-- C3 counterexample: a store holding two entries with the reserved key decodes to
two successful results — the decoder's outcome type has no duplicate-key error and the
per-entry decode accepts each reserved entry independently, contradicting the claimed
`DuplicateMetadataKeyError`. -/
theorem decode_duplicate_key_counterexample :
    decodeStore [serializeAbiMove ⟨[], []⟩, serializeAbiMove ⟨[], []⟩] =
      [.ok (some ⟨[], []⟩), .ok (some ⟨[], []⟩)] := rfl

/-- C3 amended: the decoder operates on one metadata entry at a time and performs no
duplicate detection: a store with two reserved-key entries decodes to both entries'
tables, never a duplicate-key error. -/
theorem parse_no_duplicate_detection (t₁ t₂ : ABIMoveSignature)
    (h₁ : t₁.WF) (h₂ : t₂.WF) :
    decodeStore [serializeAbiMove t₁, serializeAbiMove t₂] =
      [.ok (some t₁), .ok (some t₂)] := by
  show [parse_metadata_to_move_sig (serializeAbiMove t₁),
        parse_metadata_to_move_sig (serializeAbiMove t₂)] = _
  rw [parse_serializeAbiMove t₁ h₁, parse_serializeAbiMove t₂ h₂]

/-- Witness for the amended C3 at concrete tables. -/
theorem parse_no_duplicate_detection_witness :
    (ABIMoveSignature.WF ⟨[], []⟩) ∧ sampleTable.WF ∧
      decodeStore [serializeAbiMove ⟨[], []⟩, serializeAbiMove sampleTable] =
        [.ok (some ⟨[], []⟩), .ok (some sampleTable)] :=
  ⟨by decide, by decide, parse_no_duplicate_detection ⟨[], []⟩ sampleTable
    (by decide) (by decide)⟩

/-- A metadata value whose bytes do not deserialize to a well-formed aggregate
signature table: either a JSON document of the wrong shape, or bytes that are not
UTF-8 / not JSON at all. -/
def malformedPayload : Blob → Prop
  | Blob.json doc => abiFromJson doc = none
  | Blob.invalid => True

/-- C4 counterexample: on a reserved-key entry whose value is the JSON document
`null` (well-formed JSON, but not an aggregate signature table) the decoder panics
(failed `unwrap`) instead of returning a decode error. -/
theorem malformed_payload_counterexample :
    parse_metadata_to_move_sig
      { key := utf8Encode ABI_MOVE_KEY, value := Blob.json Json.null } = .panicked := rfl

/-- C4 amended: for every reserved-key entry whose value bytes do not deserialize to
a well-formed aggregate signature table, the decode panics (it `unwrap`s the
`serde_json` result) rather than returning an error value; no partial result is
produced. -/
theorem parse_malformed_panics (m : Metadata)
    (hk : decodeUtf8 m.key = some ABI_MOVE_KEY) (hv : malformedPayload m.value) :
    parse_metadata_to_move_sig m = .panicked := by
  cases hval : m.value with
  | invalid => simp [parse_metadata_to_move_sig, hk, hval]
  | json doc =>
    have hd : abiFromJson doc = none := by rw [hval] at hv; exact hv
    simp [parse_metadata_to_move_sig, hk, hval, hd]

/-- Witness for the amended C4 at a concrete entry with non-deserializable bytes. -/
theorem parse_malformed_panics_witness :
    decodeUtf8 (utf8Encode ABI_MOVE_KEY) = some ABI_MOVE_KEY ∧
    malformedPayload Blob.invalid ∧
    parse_metadata_to_move_sig
      { key := utf8Encode ABI_MOVE_KEY, value := Blob.invalid } = .panicked :=
  ⟨by decide, trivial,
    parse_malformed_panics { key := utf8Encode ABI_MOVE_KEY, value := Blob.invalid }
      (by decide) trivial⟩

/-- C5 counterexample: the byte sequence `[0xFF]` differs from the reserved key, yet
decoding an entry with that key panics (the key `unwrap` fails on non-UTF-8 bytes)
instead of yielding the absent outcome. -/
theorem nonutf8_key_counterexample :
    parse_metadata_to_move_sig { key := [0xFF], value := Blob.invalid } = .panicked ∧
      [0xFF] ≠ utf8Encode ABI_MOVE_KEY :=
  ⟨rfl, by decide⟩

/-- C5 amended: for every entry whose key bytes are valid UTF-8 and decode to a string
different from the reserved constant, decoding yields the absent outcome `None` and
never an error; a key that is not valid UTF-8 instead panics the decoder. -/
theorem parse_foreign_key_absent (m : Metadata) (s : List Nat)
    (hk : decodeUtf8 m.key = some s) (hne : s ≠ ABI_MOVE_KEY) :
    parse_metadata_to_move_sig m = .ok none := by
  simp [parse_metadata_to_move_sig, hk, hne]

/-- Witness for the amended C5 at a concrete non-reserved key. -/
theorem parse_foreign_key_absent_witness :
    decodeUtf8 (utf8Encode (strLit "other_key")) = some (strLit "other_key") ∧
    strLit "other_key" ≠ ABI_MOVE_KEY ∧
    parse_metadata_to_move_sig
      { key := utf8Encode (strLit "other_key"), value := Blob.invalid } = .ok none :=
  ⟨by decide, by decide,
    parse_foreign_key_absent
      { key := utf8Encode (strLit "other_key"), value := Blob.invalid }
      (strLit "other_key") (by decide) (by decide)⟩

/-! ## Shape of the serialized payload -/

/-- Top-level field names of a JSON document, when it is an object. -/
def topFieldNames : Json → Option (List (List Nat))
  | Json.obj fs => some (fs.map Prod.fst)
  | _ => none

def lookupField : List (List Nat × Json) → List Nat → Option Json
  | [], _ => none
  | (k, v) :: rest, name => if k = name then some v else lookupField rest name

/-- The value of a named field of a JSON object. -/
def jsonField : Json → List Nat → Option Json
  | Json.obj fs, name => lookupField fs name
  | _, _ => none

theorem strLit_em_ne_fm : strLit "event_map" ≠ strLit "func_map" := by decide

/-- C6: the serialized ABI payload of an aggregate signature table is a JSON object
with exactly the two top-level fields `event_map` and `func_map`, and the keys of each
of those two objects appear in ascending order of the key string. -/
theorem abi_payload_shape (t : ABIMoveSignature) (h : t.WF) :
    topFieldNames (abiToJson t) = some [strLit "event_map", strLit "func_map"] ∧
    (∃ em, jsonField (abiToJson t) (strLit "event_map") = some (Json.obj em) ∧
      List.Pairwise (fun a b => strLt a.1 b.1 = true) em) ∧
    (∃ fm, jsonField (abiToJson t) (strLit "func_map") = some (Json.obj fm) ∧
      List.Pairwise (fun a b => strLt a.1 b.1 = true) fm) := by
  obtain ⟨he, hf⟩ := h
  refine ⟨rfl, ⟨mapToJson t.event_map, ?_, ?_⟩, ⟨mapToJson t.func_map, ?_, ?_⟩⟩
  · simp [abiToJson, jsonField, lookupField]
  · rw [mapToJson, List.pairwise_map]
    exact he
  · simp [abiToJson, jsonField, lookupField, strLit_em_ne_fm]
  · rw [mapToJson, List.pairwise_map]
    exact hf

/-- Witness for C6 at a concrete table. -/
theorem abi_payload_shape_witness :
    sampleTable.WF ∧
    (topFieldNames (abiToJson sampleTable) =
        some [strLit "event_map", strLit "func_map"] ∧
      (∃ em, jsonField (abiToJson sampleTable) (strLit "event_map") =
          some (Json.obj em) ∧
        List.Pairwise (fun a b => strLt a.1 b.1 = true) em) ∧
      (∃ fm, jsonField (abiToJson sampleTable) (strLit "func_map") =
          some (Json.obj fm) ∧
        List.Pairwise (fun a b => strLt a.1 b.1 = true) fm)) :=
  ⟨by decide, abi_payload_shape sampleTable (by decide)⟩

/-- C8: for every compilation context the encoder returns exactly one metadata entry
(the function's return type is a single `Metadata`), and that entry's key is exactly
the UTF-8 bytes of the reserved constant `"abi_move"`. -/
theorem generate_key_reserved (ctx : Context) :
    (generate_abi_move_metadata ctx).key = utf8Encode ABI_MOVE_KEY ∧
      utf8Encode ABI_MOVE_KEY = [97, 98, 105, 95, 109, 111, 118, 101] :=
  ⟨rfl, by decide⟩

/-! ## Model builder options (`language/move-model/src/options.rs`) -/

/-- Modelled from the spec: `SimplificationPass` (defined in
`language/move-model/src/simplifier.rs`, which is not under src/) is a named
simplification-pass identifier; the options only carry the ordered list. -/
inductive SimplificationPass where
  | named (id : List Nat)
deriving DecidableEq

/-- Options for choosing the representation of unsigned integer types in the prover;
the `#[default]` variant is `Int`. -/
inductive NumRepresentation where
  | Int
  | Bv
  | Auto
deriving DecidableEq

namespace NumRepresentation

/-- `matches!(self, Int)`. -/
def integer_representation : NumRepresentation → Bool
  | .Int => true
  | _ => false

/-- `matches!(self, Bv)`. -/
def bv_representation : NumRepresentation → Bool
  | .Bv => true
  | _ => false

/-- `matches!(self, Auto)`. -/
def auto_representation : NumRepresentation → Bool
  | .Auto => true
  | _ => false

end NumRepresentation

structure ModelBuilderOptions where
  ignore_pragma_opaque_internal_only : Bool
  ignore_pragma_opaque_when_possible : Bool
  simplification_pipeline : List SimplificationPass
  num_repr : NumRepresentation
deriving DecidableEq

/-- `derive(Default)`: every field takes its own default — `false` for the two flags,
the empty list for the pipeline, and the `#[default]` variant `Int` for `num_repr`. -/
def defaultModelBuilderOptions : ModelBuilderOptions :=
  { ignore_pragma_opaque_internal_only := false
    ignore_pragma_opaque_when_possible := false
    simplification_pipeline := []
    num_repr := NumRepresentation.Int }

/-- C9: the three predicates on `NumRepresentation` each hold exactly of their own
variant, and on every value exactly one of the three returns true. -/
theorem num_representation_predicates (r : NumRepresentation) :
    (r.integer_representation = true ↔ r = NumRepresentation.Int) ∧
    (r.bv_representation = true ↔ r = NumRepresentation.Bv) ∧
    (r.auto_representation = true ↔ r = NumRepresentation.Auto) ∧
    r.integer_representation.toNat + r.bv_representation.toNat +
      r.auto_representation.toNat = 1 := by
  cases r <;> decide

/-! ## Loading a configuration document into `ModelBuilderOptions`

The struct carries `#[serde(default, deny_unknown_fields)]`: a configuration document
is a set of named fields; a field name outside the recognized set is a hard error, a
duplicated field is an error, a missing field takes its default. -/

inductive ConfigValue where
  | boolVal (b : Bool)
  | passesVal (ps : List SimplificationPass)
  | reprVal (r : NumRepresentation)
deriving DecidableEq

inductive ConfigError where
  | unknownField (name : List Nat)
  | duplicateField (name : List Nat)
  | illTypedField (name : List Nat)
deriving DecidableEq

def fieldInternalOnly : List Nat := strLit "ignore_pragma_opaque_internal_only"

def fieldWhenPossible : List Nat := strLit "ignore_pragma_opaque_when_possible"

def fieldPipeline : List Nat := strLit "simplification_pipeline"

def fieldNumRepr : List Nat := strLit "num_repr"

/-- The recognized field set of `ModelBuilderOptions`. -/
def recognizedFields : List (List Nat) :=
  [fieldInternalOnly, fieldWhenPossible, fieldPipeline, fieldNumRepr]

/-- Deserialization state: which fields have been seen so far, with their values. -/
structure PartialOptions where
  ipo_internal : Option Bool
  ipo_possible : Option Bool
  pipeline : Option (List SimplificationPass)
  nrepr : Option NumRepresentation
deriving DecidableEq


/-- Processing one document field, as serde's map visitor does: reject an unknown
field name, reject a duplicate, reject an ill-typed value, record a recognized one. -/
def setField (acc : PartialOptions) (name : List Nat) (v : ConfigValue) :
    Except ConfigError PartialOptions :=
  if name = fieldInternalOnly then
    match acc.ipo_internal, v with
    | some _, _ => Except.error (ConfigError.duplicateField name)
    | none, ConfigValue.boolVal b => Except.ok { acc with ipo_internal := some b }
    | none, _ => Except.error (ConfigError.illTypedField name)
  else if name = fieldWhenPossible then
    match acc.ipo_possible, v with
    | some _, _ => Except.error (ConfigError.duplicateField name)
    | none, ConfigValue.boolVal b => Except.ok { acc with ipo_possible := some b }
    | none, _ => Except.error (ConfigError.illTypedField name)
  else if name = fieldPipeline then
    match acc.pipeline, v with
    | some _, _ => Except.error (ConfigError.duplicateField name)
    | none, ConfigValue.passesVal ps => Except.ok { acc with pipeline := some ps }
    | none, _ => Except.error (ConfigError.illTypedField name)
  else if name = fieldNumRepr then
    match acc.nrepr, v with
    | some _, _ => Except.error (ConfigError.duplicateField name)
    | none, ConfigValue.reprVal r => Except.ok { acc with nrepr := some r }
    | none, _ => Except.error (ConfigError.illTypedField name)
  else Except.error (ConfigError.unknownField name)

/-- Visiting all document fields in order, stopping at the first error. -/
def loadFields (acc : PartialOptions) :
    List (List Nat × ConfigValue) → Except ConfigError PartialOptions
  | [] => Except.ok acc
  | (name, v) :: rest =>
    match setField acc name v with
    | Except.error e => Except.error e
    | Except.ok acc' => loadFields acc' rest

/-- Loading a configuration document: visit all fields, then fill every unseen field
with its default (`serde(default)`). -/
def loadModelBuilderOptions (doc : List (List Nat × ConfigValue)) :
    Except ConfigError ModelBuilderOptions :=
  (loadFields ⟨none, none, none, none⟩ doc).map fun p =>
    { ignore_pragma_opaque_internal_only := p.ipo_internal.getD false
      ignore_pragma_opaque_when_possible := p.ipo_possible.getD false
      simplification_pipeline := p.pipeline.getD []
      num_repr := p.nrepr.getD NumRepresentation.Int }

theorem loadFields_cons (acc : PartialOptions) (n : List Nat) (v : ConfigValue)
    (rest : List (List Nat × ConfigValue)) :
    loadFields acc ((n, v) :: rest) =
      match setField acc n v with
      | Except.error e => Except.error e
      | Except.ok acc' => loadFields acc' rest := rfl

theorem setField_unknown (acc : PartialOptions) (n : List Nat) (v : ConfigValue)
    (h : n ∉ recognizedFields) :
    setField acc n v = Except.error (ConfigError.unknownField n) := by
  simp only [recognizedFields, List.mem_cons, List.not_mem_nil, or_false, not_or] at h
  unfold setField
  rw [if_neg h.1, if_neg h.2.1, if_neg h.2.2.1, if_neg h.2.2.2]

theorem loadFields_unknown :
    ∀ (doc : List (List Nat × ConfigValue)) (acc : PartialOptions),
      (∃ p ∈ doc, p.1 ∉ recognizedFields) →
      ∃ e, loadFields acc doc = Except.error e
  | [], _, h => by rcases h with ⟨p, hp, _⟩; cases hp
  | (n, w) :: rest, acc, h => by
    rw [loadFields_cons]
    by_cases hn : n ∈ recognizedFields
    · have hrest : ∃ p ∈ rest, p.1 ∉ recognizedFields := by
        rcases h with ⟨p, hp, hnp⟩
        rcases List.mem_cons.1 hp with he | hm
        · exact absurd (by rw [he]; exact hn) hnp
        · exact ⟨p, hm, hnp⟩
      cases hsf : setField acc n w with
      | error e => exact ⟨e, rfl⟩
      | ok acc' =>
        rcases loadFields_unknown rest acc' hrest with ⟨e, he⟩
        exact ⟨e, he⟩
    · exact ⟨ConfigError.unknownField n, by rw [setField_unknown acc n w hn]⟩

/-- C7: loading a configuration document containing a field whose name is not in the
recognized field set of `ModelBuilderOptions` is rejected with an error; no (partial)
options value is produced. -/
theorem unknown_field_rejected (doc : List (List Nat × ConfigValue))
    (name : List Nat) (v : ConfigValue)
    (hmem : (name, v) ∈ doc) (hunk : name ∉ recognizedFields) :
    ∃ e, loadModelBuilderOptions doc = Except.error e := by
  rcases loadFields_unknown doc ⟨none, none, none, none⟩ ⟨(name, v), hmem, hunk⟩ with ⟨e, he⟩
  exact ⟨e, by rw [loadModelBuilderOptions, he]; rfl⟩

/-- Witness for C7: a document with one unrecognized field is rejected. -/
theorem unknown_field_rejected_witness :
    ((strLit "unknown_option", ConfigValue.boolVal true) ∈
      [(strLit "unknown_option", ConfigValue.boolVal true)]) ∧
    strLit "unknown_option" ∉ recognizedFields ∧
    ∃ e, loadModelBuilderOptions [(strLit "unknown_option", ConfigValue.boolVal true)] =
      Except.error e :=
  ⟨by decide, by decide,
    unknown_field_rejected [(strLit "unknown_option", ConfigValue.boolVal true)]
      (strLit "unknown_option") (ConfigValue.boolVal true) (by decide) (by decide)⟩

/-- The value recorded so far for a given field name. -/
def fieldOf (p : PartialOptions) (n : List Nat) : Option ConfigValue :=
  if n = fieldInternalOnly then p.ipo_internal.map ConfigValue.boolVal
  else if n = fieldWhenPossible then p.ipo_possible.map ConfigValue.boolVal
  else if n = fieldPipeline then p.pipeline.map ConfigValue.passesVal
  else if n = fieldNumRepr then p.nrepr.map ConfigValue.reprVal
  else none

/-- A document field that is recognized and carries a value of the field's type. -/
def wellFormedField : List Nat × ConfigValue → Prop
  | (n, v) =>
    (n = fieldInternalOnly ∧ ∃ b, v = ConfigValue.boolVal b) ∨
    (n = fieldWhenPossible ∧ ∃ b, v = ConfigValue.boolVal b) ∨
    (n = fieldPipeline ∧ ∃ ps, v = ConfigValue.passesVal ps) ∨
    (n = fieldNumRepr ∧ ∃ r, v = ConfigValue.reprVal r)

theorem fwp_ne_fio : fieldWhenPossible ≠ fieldInternalOnly := by decide

theorem fpl_ne_fio : fieldPipeline ≠ fieldInternalOnly := by decide

theorem fpl_ne_fwp : fieldPipeline ≠ fieldWhenPossible := by decide

theorem fnr_ne_fio : fieldNumRepr ≠ fieldInternalOnly := by decide

theorem fnr_ne_fwp : fieldNumRepr ≠ fieldWhenPossible := by decide

theorem fnr_ne_fpl : fieldNumRepr ≠ fieldPipeline := by decide

theorem fieldOf_init (n : List Nat) : fieldOf ⟨none, none, none, none⟩ n = none := by
  simp [fieldOf]

theorem setField_ok_of_wf (acc : PartialOptions) (n : List Nat) (v : ConfigValue)
    (hwf : wellFormedField (n, v)) (hnone : fieldOf acc n = none) :
    ∃ acc', setField acc n v = Except.ok acc' ∧
      ∀ n', n' ≠ n → fieldOf acc' n' = fieldOf acc n' := by
  rcases hwf with ⟨h1, b, hv⟩ | ⟨h1, b, hv⟩ | ⟨h1, ps, hv⟩ | ⟨h1, r, hv⟩ <;> subst hv <;> subst h1
  · unfold fieldOf at hnone
    rw [if_pos rfl] at hnone
    cases hacc : acc.ipo_internal with
    | some b' => rw [hacc] at hnone; cases hnone
    | none =>
      refine ⟨{ acc with ipo_internal := some b }, ?_, ?_⟩
      · unfold setField
        rw [if_pos rfl, hacc]
      · intro n' hne
        unfold fieldOf
        rw [if_neg hne, if_neg hne]
  · unfold fieldOf at hnone
    rw [if_neg fwp_ne_fio, if_pos rfl] at hnone
    cases hacc : acc.ipo_possible with
    | some b' => rw [hacc] at hnone; cases hnone
    | none =>
      refine ⟨{ acc with ipo_possible := some b }, ?_, ?_⟩
      · unfold setField
        rw [if_neg fwp_ne_fio, if_pos rfl, hacc]
      · intro n' hne
        unfold fieldOf
        by_cases h' : n' = fieldInternalOnly
        · rw [if_pos h', if_pos h']
        · rw [if_neg h', if_neg h', if_neg hne, if_neg hne]
  · unfold fieldOf at hnone
    rw [if_neg fpl_ne_fio, if_neg fpl_ne_fwp, if_pos rfl] at hnone
    cases hacc : acc.pipeline with
    | some ps' => rw [hacc] at hnone; cases hnone
    | none =>
      refine ⟨{ acc with pipeline := some ps }, ?_, ?_⟩
      · unfold setField
        rw [if_neg fpl_ne_fio, if_neg fpl_ne_fwp, if_pos rfl, hacc]
      · intro n' hne
        unfold fieldOf
        by_cases h1' : n' = fieldInternalOnly
        · rw [if_pos h1', if_pos h1']
        · rw [if_neg h1', if_neg h1']
          by_cases h2' : n' = fieldWhenPossible
          · rw [if_pos h2', if_pos h2']
          · rw [if_neg h2', if_neg h2', if_neg hne, if_neg hne]
  · unfold fieldOf at hnone
    rw [if_neg fnr_ne_fio, if_neg fnr_ne_fwp, if_neg fnr_ne_fpl, if_pos rfl] at hnone
    cases hacc : acc.nrepr with
    | some r' => rw [hacc] at hnone; cases hnone
    | none =>
      refine ⟨{ acc with nrepr := some r }, ?_, ?_⟩
      · unfold setField
        rw [if_neg fnr_ne_fio, if_neg fnr_ne_fwp, if_neg fnr_ne_fpl, if_pos rfl, hacc]
      · intro n' hne
        unfold fieldOf
        by_cases h1' : n' = fieldInternalOnly
        · rw [if_pos h1', if_pos h1']
        · rw [if_neg h1', if_neg h1']
          by_cases h2' : n' = fieldWhenPossible
          · rw [if_pos h2', if_pos h2']
          · rw [if_neg h2', if_neg h2']
            by_cases h3' : n' = fieldPipeline
            · rw [if_pos h3', if_pos h3']
            · rw [if_neg h3', if_neg h3', if_neg hne, if_neg hne]

theorem loadFields_all_recognized :
    ∀ (doc : List (List Nat × ConfigValue)) (acc : PartialOptions),
      (∀ p ∈ doc, wellFormedField p) → (doc.map Prod.fst).Nodup →
      (∀ p ∈ doc, fieldOf acc p.1 = none) →
      ∃ q, loadFields acc doc = Except.ok q ∧
        ∀ n, n ∉ doc.map Prod.fst → fieldOf q n = fieldOf acc n
  | [], acc, _, _, _ => ⟨acc, rfl, fun _ _ => rfl⟩
  | (n, v) :: rest, acc, hwf, hnd, hnone => by
    obtain ⟨acc', hset, hpres⟩ :=
      setField_ok_of_wf acc n v (hwf (n, v) (List.mem_cons_self _ _))
        (hnone (n, v) (List.mem_cons_self _ _))
    rw [List.map_cons, List.nodup_cons] at hnd
    have hrestnone : ∀ p ∈ rest, fieldOf acc' p.1 = none := by
      intro p hp
      have hpn : p.1 ≠ n := by
        intro he
        have hmapmem : p.1 ∈ rest.map Prod.fst := List.mem_map_of_mem Prod.fst hp
        rw [he] at hmapmem
        exact hnd.1 hmapmem
      rw [hpres p.1 hpn]
      exact hnone p (List.mem_cons_of_mem _ hp)
    obtain ⟨q, hq, hqpres⟩ :=
      loadFields_all_recognized rest acc'
        (fun p hp => hwf p (List.mem_cons_of_mem _ hp)) hnd.2 hrestnone
    refine ⟨q, ?_, ?_⟩
    · rw [loadFields_cons, hset]
      exact hq
    · intro m hm
      rw [List.map_cons, List.mem_cons, not_or] at hm
      rw [hqpres m hm.2, hpres m hm.1]

/-- C10: the default `ModelBuilderOptions` has both opaque-relaxation flags false, an
empty simplification pipeline and numeric representation `Int`; and a configuration
document carrying any subset of the recognized fields (each well-typed, no
duplicates) loads successfully, with the defaults filled in for the omitted
fields. -/
theorem default_options_and_omitted_fields :
    defaultModelBuilderOptions = ⟨false, false, [], NumRepresentation.Int⟩ ∧
    ∀ doc : List (List Nat × ConfigValue),
      (∀ p ∈ doc, wellFormedField p) → (doc.map Prod.fst).Nodup →
      ∃ o, loadModelBuilderOptions doc = Except.ok o ∧
        (fieldInternalOnly ∉ doc.map Prod.fst →
          o.ignore_pragma_opaque_internal_only = false) ∧
        (fieldWhenPossible ∉ doc.map Prod.fst →
          o.ignore_pragma_opaque_when_possible = false) ∧
        (fieldPipeline ∉ doc.map Prod.fst → o.simplification_pipeline = []) ∧
        (fieldNumRepr ∉ doc.map Prod.fst → o.num_repr = NumRepresentation.Int) := by
  refine ⟨rfl, ?_⟩
  intro doc hwf hnd
  obtain ⟨q, hq, hpres⟩ :=
    loadFields_all_recognized doc ⟨none, none, none, none⟩ hwf hnd
      (fun p _ => fieldOf_init p.1)
  refine ⟨{ ignore_pragma_opaque_internal_only := q.ipo_internal.getD false
            ignore_pragma_opaque_when_possible := q.ipo_possible.getD false
            simplification_pipeline := q.pipeline.getD []
            num_repr := q.nrepr.getD NumRepresentation.Int }, ?_, ?_, ?_, ?_, ?_⟩
  · rw [loadModelBuilderOptions, hq]
    rfl
  · intro hmem
    have h0 : fieldOf q fieldInternalOnly = none := by
      rw [hpres fieldInternalOnly hmem]
      exact fieldOf_init fieldInternalOnly
    unfold fieldOf at h0
    rw [if_pos rfl] at h0
    cases hqi : q.ipo_internal with
    | none => simp [hqi]
    | some b => rw [hqi] at h0; cases h0
  · intro hmem
    have h0 : fieldOf q fieldWhenPossible = none := by
      rw [hpres fieldWhenPossible hmem]
      exact fieldOf_init fieldWhenPossible
    unfold fieldOf at h0
    rw [if_neg fwp_ne_fio, if_pos rfl] at h0
    cases hqi : q.ipo_possible with
    | none => simp [hqi]
    | some b => rw [hqi] at h0; cases h0
  · intro hmem
    have h0 : fieldOf q fieldPipeline = none := by
      rw [hpres fieldPipeline hmem]
      exact fieldOf_init fieldPipeline
    unfold fieldOf at h0
    rw [if_neg fpl_ne_fio, if_neg fpl_ne_fwp, if_pos rfl] at h0
    cases hqi : q.pipeline with
    | none => simp [hqi]
    | some ps => rw [hqi] at h0; cases h0
  · intro hmem
    have h0 : fieldOf q fieldNumRepr = none := by
      rw [hpres fieldNumRepr hmem]
      exact fieldOf_init fieldNumRepr
    unfold fieldOf at h0
    rw [if_neg fnr_ne_fio, if_neg fnr_ne_fwp, if_neg fnr_ne_fpl, if_pos rfl] at h0
    cases hqi : q.nrepr with
    | none => simp [hqi]
    | some r => rw [hqi] at h0; cases h0

/-- Witness for C10: a document holding only `num_repr` loads, and the three omitted
fields take their defaults. -/
theorem default_options_and_omitted_fields_witness :
    (∀ p ∈ [(fieldNumRepr, ConfigValue.reprVal NumRepresentation.Bv)], wellFormedField p) ∧
    ([(fieldNumRepr, ConfigValue.reprVal NumRepresentation.Bv)].map Prod.fst).Nodup ∧
    (∃ o, loadModelBuilderOptions
        [(fieldNumRepr, ConfigValue.reprVal NumRepresentation.Bv)] = Except.ok o ∧
      (fieldInternalOnly ∉
          [(fieldNumRepr, ConfigValue.reprVal NumRepresentation.Bv)].map Prod.fst →
        o.ignore_pragma_opaque_internal_only = false) ∧
      (fieldWhenPossible ∉
          [(fieldNumRepr, ConfigValue.reprVal NumRepresentation.Bv)].map Prod.fst →
        o.ignore_pragma_opaque_when_possible = false) ∧
      (fieldPipeline ∉
          [(fieldNumRepr, ConfigValue.reprVal NumRepresentation.Bv)].map Prod.fst →
        o.simplification_pipeline = []) ∧
      (fieldNumRepr ∉
          [(fieldNumRepr, ConfigValue.reprVal NumRepresentation.Bv)].map Prod.fst →
        o.num_repr = NumRepresentation.Int)) :=
  ⟨fun p hp => by
      rw [List.mem_singleton] at hp
      subst hp
      exact Or.inr (Or.inr (Or.inr ⟨rfl, NumRepresentation.Bv, rfl⟩)),
   by decide,
   default_options_and_omitted_fields.2
     [(fieldNumRepr, ConfigValue.reprVal NumRepresentation.Bv)]
     (fun p hp => by
       rw [List.mem_singleton] at hp
       subst hp
       exact Or.inr (Or.inr (Or.inr ⟨rfl, NumRepresentation.Bv, rfl⟩)))
     (by decide)⟩
